import Mathlib

/-!
Shallow embedding of the validation / training logic of
`src/modules/trainer/mind_rs_trainer.py` and of the BATM model variants of
`src/news_recommendation/models/nrs/batm.py`.

Numeric tensor entries are modelled as rationals (`ℚ`) where only control
flow and slicing matter, and as reals (`ℝ`) for the softmax attention
weights.  Python exceptions are modelled with `Except`.
-/

namespace NewsRec

/-! ## Impression evaluation loop: per-row metric computation (`_valid_epoch`)

One row of a validation batch, after `label`, `pred`, the index tensors and
the length tensors have been moved to host arrays.  `label` and `pred` are
padded to the batch-wide candidate length; `can_len` / `his_len` are the
true lengths. -/

structure ImpressionRow where
  impression_index : ℕ
  label : List ℚ
  pred : List ℚ
  candidate_index : List ℕ
  history_index : List ℕ
  can_len : ℕ
  his_len : ℕ

/-- `{m.__name__: m(label[i][:can_len[i]], pred[i][:can_len[i]]) for m in self.metric_funcs}` :
every registered metric, applied to the row's label and prediction arrays
sliced to the row's true candidate length. -/
def impression_results (metrics : List (String × (List ℚ → List ℚ → ℚ)))
    (r : ImpressionRow) : List (String × ℚ) :=
  metrics.map (fun m => (m.1, m.2 (r.label.take r.can_len) (r.pred.take r.can_len)))

/-- The `for i in range(len(label))` loop body over all rows of a batch:
`result_dict[index] = {...}` keyed by the impression index. -/
def valid_epoch_results (metrics : List (String × (List ℚ → List ℚ → ℚ)))
    (rows : List ImpressionRow) : List (ℕ × List (String × ℚ)) :=
  rows.map (fun r => (r.impression_index, impression_results metrics r))

/-! ## Fast / slow evaluation decision and the `try ... except` block -/

/-- The two exception classes named in the `except` clause of `_valid_epoch`. -/
inductive ExcClass where
  | KeyError : ExcClass
  | RuntimeError : ExcClass
deriving DecidableEq, Repr

/-- Python truthiness of an exception *class* object: any class object is truthy. -/
def excClassTruthy (_ : ExcClass) : Bool := true

/-- Python `a or b` on class objects: returns `a` when `bool(a)` is true, else `b`. -/
def pyOr (a b : ExcClass) : ExcClass := if excClassTruthy a then a else b

/-- The handler expression of the source line `except KeyError or RuntimeError:` —
the expression `KeyError or RuntimeError` is evaluated first, as Python does. -/
def handled_exc : ExcClass := pyOr ExcClass.KeyError ExcClass.RuntimeError

/-- An `except C:` clause catches a raised exception exactly when it is an
instance of `C` (`KeyError` and `RuntimeError` are unrelated classes, so no
subclass matching arises between them). -/
def catches (handler raised : ExcClass) : Bool := handler == raised

/-- The guard of the fast-evaluation branch:
`valid_method == "fast_evaluation" and not return_weight and not entropy_constraint
 and not topic_variant == "variational_topic"`. -/
def fast_eval_condition (valid_method : String) (return_weight entropy_constraint : Bool)
    (topic_variant : String) : Bool :=
  (valid_method == "fast_evaluation") && !return_weight && !entropy_constraint &&
    !(topic_variant == "variational_topic")

/-- The whole `try ... except` block computing `news_embeds`.  `get_news_embeds`
is the (possibly raising) cache-construction call, modelled as an `Except`
value; it is only evaluated when the fast-evaluation guard holds.  The result
is `Except.error` exactly when an exception escapes the block. -/
def news_embeds_result (E : Type) (cond : Bool) (get_news_embeds : Except ExcClass E) :
    Except ExcClass (Option E) :=
  if cond then
    match get_news_embeds with
    | Except.ok e => Except.ok (some e)
    | Except.error exc =>
        if catches handled_exc exc then Except.ok none else Except.error exc
  else Except.ok none

/-! ## The impressions-validation loop and the `saved_weight_num` cap

`for vi, batch_dict in tqdm(enumerate(valid_loader), ...)` with, at the end of
each iteration, `if vi >= saved_weight_num and return_weight: break`.
`valid_loop_batches fuel vi saved rw` lists the batch indices the loop body
runs on, starting at index `vi` with `fuel` batches remaining in the loader. -/

def valid_loop_batches : ℕ → ℕ → ℕ → Bool → List ℕ
  | 0, _, _, _ => []
  | fuel + 1, vi, saved, rw =>
      vi :: (if saved ≤ vi ∧ rw = true then []
             else valid_loop_batches fuel (vi + 1) saved rw)

/-- Batch indices processed by one full run of the impressions-validation loop
over a loader of `numBatches` batches. -/
def processed_batches (numBatches saved_weight_num : ℕ) (return_weight : Bool) : List ℕ :=
  valid_loop_batches numBatches 0 saved_weight_num return_weight

/-! ## Weight-dump merge and save

When a prior dump file exists:
`old_weights = torch.load(weight_path)`, then
`for key in weight_dict.keys(): weight_dict[key].extend(old_weights[key])`,
then `torch.save(dict(weight_dict), weight_path)`.
A dump is an association list from field name to the ordered sequence of
per-impression values (each value itself a list of rationals).  The prior
file is also an association list; `old_weights[key]` is a dict subscript and
raises `KeyError` when the current dump holds a key the prior file lacks —
the loop stops at the first such key (in iteration order), the exception
propagates, and `torch.save` is never reached, so the merge either raises or
yields the full merged dict to be written. -/

def merge_weight_dump :
    List (String × List (List ℚ)) → List (String × List (List ℚ)) →
      Except ExcClass (List (String × List (List ℚ)))
  | [], _ => Except.ok []
  | kv :: rest, old_weights =>
      match old_weights.lookup kv.1 with
      | none => Except.error ExcClass.KeyError
      | some va =>
          match merge_weight_dump rest old_weights with
          | Except.error e => Except.error e
          | Except.ok tail => Except.ok ((kv.1, kv.2 ++ va) :: tail)

/-! ## Interval validation in `_train_epoch`

`if (batch_idx + 1) % math.ceil(length * self.valid_interval) == 0 and (batch_idx + 1) < length:
     self._validation(epoch, batch_idx)`
and after the loop `return self._validation(epoch, length, False)`.
`valid_interval` is a float; for the concrete configuration of the claim
(`length = 100`, `valid_interval = 0.2`) the double product `100 * 0.2`
rounds to exactly `20.0`, so the rational model computes the same ceiling. -/

def pyCeil (q : ℚ) : ℤ := Int.ceil q

def interval_trigger (length : ℕ) (valid_interval : ℚ) (batch_idx : ℕ) : Bool :=
  ((batch_idx + 1 : ℤ) % pyCeil ((length : ℚ) * valid_interval) == 0) &&
    (batch_idx + 1 < length)

/-- All `_validation` calls of one epoch, in order, as pairs of the
`batch_idx` argument and the `do_monitor` argument: interval calls
(`do_monitor` defaulting to `True`) inside the loop, then the end-of-epoch
call `self._validation(epoch, length, False)`. -/
def epoch_validations (length : ℕ) (valid_interval : ℚ) : List (ℕ × Bool) :=
  ((List.range length).filterMap
    (fun b => if interval_trigger length valid_interval b then some (b, true) else none))
    ++ [(length, false)]

/-! ## Loss assembly in `_train_epoch`

`loss = self.criterion(...)`; then `if self.entropy_constraint: loss += self.alpha * output["entropy"]`;
then `if self.topic_variant == "variational_topic":` — inside that branch the
line `loss += self.beta * output["kl_divergence"]` is commented out in the
source, and only the progress-bar description string is extended — then
`self.accelerator.backward(loss)`. -/

def backward_loss (primary entropy kl_divergence alpha : ℚ)
    (entropy_constraint : Bool) (topic_variant : String) : ℚ :=
  let loss := primary
  let loss := if entropy_constraint then loss + alpha * entropy else loss
  let _barShowsKL := topic_variant == "variational_topic"
  loss

/-- Whether the progress-bar description of the batch mentions the
KL-divergence value — the only effect of the `variational_topic` branch. -/
def bar_shows_kl (topic_variant : String) : Bool := topic_variant == "variational_topic"

/-! ## `BATMRSModel.user_encoder` dispatch

`y = input_feat["history_news"]`, then a chain of `if/elif` on
`self.variant_name`; with no branch taken, `y` is returned unchanged.  The
layers used inside the branches (`user_encode_layer`, `user_att_layer`,
`user_final` and the bi_batm weighted sum — all defined on the model object,
their internals outside this file's two source files) are passed as opaque
functions on the tensor type `α`. -/

def user_encoder (α : Type) (variant_name : String) (history_news : α)
    (user_encode_gru : α → α) (user_att_layer : α → α)
    (bi_weighted_sum : α → α) (user_final : α → α) : α :=
  if variant_name = "base" then user_att_layer (user_encode_gru history_news)
  else if variant_name = "bi_batm" then user_att_layer (user_final (bi_weighted_sum history_news))
  else if variant_name = "base_att" then user_att_layer history_news
  else history_news

/-! ## BATM attention weights over the reals

`extract_topic`:
`topic_weight = self.topic_layer(embedding).transpose(1, 2)`;
`mask = input_feat["news_mask"].expand(...) == 0`;
`topic_weight = torch.softmax(topic_weight.masked_fill(mask, -1e9), dim=-1)`.
`topic_layer = Sequential(Linear(E, topic_dim), Tanh(), Linear(topic_dim, head_num))`.
For `bi_batm`, `user_encoder` computes
`user_weight = self.user_encode_layer(y).transpose(1, 2)` with the same
`Linear`/`Tanh`/`Linear` shape; the two following lines (`mask = ...` and
`user_weight = torch.softmax(user_weight.masked_fill(mask, -1e9), dim=-1)`)
are commented out in the source, so no mask and no softmax is applied there.
Tensor rows are functions on `Fin`; float entries are modelled as reals. -/

noncomputable def linear_layer (m n : ℕ) (W : Fin m → Fin n → ℝ) (b : Fin m → ℝ)
    (x : Fin n → ℝ) : Fin m → ℝ :=
  fun i => (∑ j, W i j * x j) + b i

/-- `nn.Sequential(nn.Linear(E, T), nn.Tanh(), nn.Linear(T, H))` applied to one
embedding vector: the per-head scores of `topic_layer` (and, for `bi_batm`,
of `user_encode_layer`, which has the same architecture). -/
noncomputable def topic_layer (E T H : ℕ) (W1 : Fin T → Fin E → ℝ) (b1 : Fin T → ℝ)
    (W2 : Fin H → Fin T → ℝ) (b2 : Fin H → ℝ) (x : Fin E → ℝ) : Fin H → ℝ :=
  linear_layer H T W2 b2 (fun t => Real.tanh (linear_layer T E W1 b1 x t))

/-- `torch.softmax(x, dim=-1)` on one row. -/
noncomputable def softmaxRow (S : ℕ) (x : Fin S → ℝ) : Fin S → ℝ :=
  fun i => Real.exp (x i) / ∑ j, Real.exp (x j)

/-- The constant used by `masked_fill(mask, -1e9)`: a large negative float,
not literal negative infinity. -/
noncomputable def negFill : ℝ := -(10 : ℝ) ^ 9

/-- `x.masked_fill(mask, v)` on one row. -/
noncomputable def masked_fill (S : ℕ) (x : Fin S → ℝ) (mask : Fin S → Bool) (v : ℝ) :
    Fin S → ℝ :=
  fun s => if mask s then v else x s

/-- Row `h` (one head) of the `topic_weight` tensor `extract_topic` returns for
one news item: per-head scores over the `S` token positions, masked positions
(`news_mask == 0`) filled with `-1e9`, then softmax over the positions. -/
noncomputable def extract_topic_weight (E T H S : ℕ)
    (W1 : Fin T → Fin E → ℝ) (b1 : Fin T → ℝ) (W2 : Fin H → Fin T → ℝ) (b2 : Fin H → ℝ)
    (embedding : Fin S → Fin E → ℝ) (news_mask : Fin S → ℤ) (h : Fin H) : Fin S → ℝ :=
  softmaxRow S (masked_fill S
    (fun s => topic_layer E T H W1 b1 W2 b2 (embedding s) h)
    (fun s => news_mask s == 0) negFill)

/-- Row `h` of the `bi_batm` `user_weight` tensor over the `S` history
positions: the raw `user_encode_layer` outputs, transposed — no masking and
no softmax (those lines are commented out in the source). -/
noncomputable def bi_batm_user_weight (E T H S : ℕ)
    (W1 : Fin T → Fin E → ℝ) (b1 : Fin T → ℝ) (W2 : Fin H → Fin T → ℝ) (b2 : Fin H → ℝ)
    (history_news : Fin S → Fin E → ℝ) (h : Fin H) : Fin S → ℝ :=
  fun s => topic_layer E T H W1 b1 W2 b2 (history_news s) h

/-! ## Helper lemmas -/

theorem lookup_map_preserve (f : String → List (List ℚ) → List (List ℚ))
    (l : List (String × List (List ℚ))) (k : String) :
    (l.map (fun kv => (kv.1, f kv.1 kv.2))).lookup k = (l.lookup k).map (f k) := by
  induction l with
  | nil => rfl
  | cons hd tl ih =>
      simp only [List.map_cons, List.lookup]
      cases hkey : (k == hd.1) with
      | true =>
          have : k = hd.1 := by simpa using hkey
          simp [this]
      | false => simpa [hkey] using ih

theorem merge_weight_dump_ok (old_weights weight_dict : List (String × List (List ℚ)))
    (hcover : ∀ kv ∈ weight_dict, (old_weights.lookup kv.1).isSome) :
    merge_weight_dump weight_dict old_weights =
      Except.ok (weight_dict.map (fun kv => (kv.1, kv.2 ++ ((old_weights.lookup kv.1).getD [])))) := by
  induction weight_dict with
  | nil => rfl
  | cons hd tl ih =>
      obtain ⟨va, hva⟩ :=
        Option.isSome_iff_exists.mp (hcover hd (List.mem_cons_self hd tl))
      have htl := ih (fun kv hkv => hcover kv (List.mem_cons_of_mem hd hkv))
      simp only [merge_weight_dump, hva, htl, List.map_cons, Option.getD_some]

theorem valid_loop_batches_false (fuel vi saved : ℕ) :
    valid_loop_batches fuel vi saved false = List.range' vi fuel := by
  induction fuel generalizing vi with
  | zero => rfl
  | succ n ih =>
      rw [valid_loop_batches, List.range'_succ, ih]
      simp

theorem valid_loop_batches_true (fuel vi saved : ℕ) (h : vi ≤ saved) :
    valid_loop_batches fuel vi saved true = List.range' vi (min fuel (saved + 1 - vi)) := by
  induction fuel generalizing vi with
  | zero => simp [valid_loop_batches]
  | succ n ih =>
      rw [valid_loop_batches]
      by_cases hv : saved ≤ vi
      · have hvi : vi = saved := le_antisymm h hv
        have hmin : min (n + 1) (saved + 1 - vi) = 1 := by omega
        simp [hv, hvi, hmin, List.range'_succ]
      · have hstep : vi + 1 ≤ saved := by omega
        have hmin : min (n + 1) (saved + 1 - vi) = min n (saved + 1 - (vi + 1)) + 1 := by
          omega
        simp only [hv, false_and, if_false, and_true, ih (vi + 1) hstep]
        rw [hmin, List.range'_succ]

theorem softmaxRow_sum (S : ℕ) (hS : 0 < S) (x : Fin S → ℝ) :
    ∑ i, softmaxRow S x i = 1 := by
  have hpos : (0 : ℝ) < ∑ j, Real.exp (x j) :=
    Finset.sum_pos (fun j _ => Real.exp_pos _) ⟨⟨0, hS⟩, Finset.mem_univ _⟩
  unfold softmaxRow
  rw [← Finset.sum_div, div_self hpos.ne']

theorem softmaxRow_pos (S : ℕ) (x : Fin S → ℝ) (i : Fin S) : 0 < softmaxRow S x i := by
  have hpos : (0 : ℝ) < ∑ j, Real.exp (x j) :=
    Finset.sum_pos (fun j _ => Real.exp_pos _) ⟨i, Finset.mem_univ _⟩
  exact div_pos (Real.exp_pos _) hpos

theorem softmaxRow_le_exp_sub (S : ℕ) (x : Fin S → ℝ) (i j : Fin S) :
    softmaxRow S x i ≤ Real.exp (x i - x j) := by
  have hj : Real.exp (x j) ≤ ∑ k, Real.exp (x k) :=
    Finset.single_le_sum (fun k _ => (Real.exp_pos (x k)).le) (Finset.mem_univ j)
  have h1 : softmaxRow S x i ≤ Real.exp (x i) / Real.exp (x j) :=
    div_le_div_of_nonneg_left (Real.exp_pos (x i)).le (Real.exp_pos (x j)) hj
  rwa [← Real.exp_sub] at h1

/-! ## Claim theorems -/

/-- C1: inside the `_valid_epoch` row loop, every registered metric function is
applied to a single pair of arrays obtained by slicing the row's label and
prediction arrays to `can_len[i]`; when the padded arrays are at least that
long (the padding invariant), both metric inputs have length exactly
`can_len[i]`, never the padded length. -/
theorem metric_inputs_truncated_to_can_len
    (metrics : List (String × (List ℚ → List ℚ → ℚ))) (r : ImpressionRow)
    (hl : r.can_len ≤ r.label.length) (hp : r.can_len ≤ r.pred.length) :
    ∃ args : List ℚ × List ℚ,
      args.1.length = r.can_len ∧ args.2.length = r.can_len ∧
      impression_results metrics r =
        metrics.map (fun m => (m.1, m.2 args.1 args.2)) := by
  refine ⟨(r.label.take r.can_len, r.pred.take r.can_len), ?_, ?_, rfl⟩
  · rw [List.length_take]; omega
  · rw [List.length_take]; omega

theorem metric_inputs_truncated_to_can_len_witness :
    (⟨7, [1, 0, 1, 0], [2, 3, 4, 5], [10, 11, 12, 13], [1, 2], 3, 2⟩ :
        ImpressionRow).can_len ≤ ([1, 0, 1, 0] : List ℚ).length ∧
    (⟨7, [1, 0, 1, 0], [2, 3, 4, 5], [10, 11, 12, 13], [1, 2], 3, 2⟩ :
        ImpressionRow).can_len ≤ ([2, 3, 4, 5] : List ℚ).length ∧
    ∃ args : List ℚ × List ℚ,
      args.1.length = 3 ∧ args.2.length = 3 ∧
      impression_results [("headI", fun l _ => l.headI)]
          ⟨7, [1, 0, 1, 0], [2, 3, 4, 5], [10, 11, 12, 13], [1, 2], 3, 2⟩ =
        [("headI", fun l _ => l.headI)].map (fun m => (m.1, m.2 args.1 args.2)) :=
  ⟨by decide, by decide,
    metric_inputs_truncated_to_can_len [("headI", fun l _ => l.headI)]
      ⟨7, [1, 0, 1, 0], [2, 3, 4, 5], [10, 11, 12, 13], [1, 2], 3, 2⟩
      (by decide) (by decide)⟩

/-- C2: when the cache-construction call itself succeeds, `news_embeds` is the
built cache exactly when `valid_method = "fast_evaluation"`, `return_weight`
is false, `entropy_constraint` is false and `topic_variant` is not
`"variational_topic"`; in every other configuration it is `none` (the call is
not even made), so evaluation recomputes embeddings per impression. -/
theorem news_embeds_built_iff (valid_method : String)
    (return_weight entropy_constraint : Bool) (topic_variant : String) (e : ℕ) :
    news_embeds_result ℕ
        (fast_eval_condition valid_method return_weight entropy_constraint topic_variant)
        (Except.ok e) =
      Except.ok (if valid_method = "fast_evaluation" ∧ return_weight = false ∧
                    entropy_constraint = false ∧ topic_variant ≠ "variational_topic"
                 then some e else none) := by
  cases return_weight <;> cases entropy_constraint <;>
    by_cases h1 : valid_method = "fast_evaluation" <;>
    by_cases h4 : topic_variant = "variational_topic" <;>
    simp [news_embeds_result, fast_eval_condition, h1, h4]

/-- C3: the handler expression `KeyError or RuntimeError` evaluates to the
single class `KeyError`, so a `KeyError` raised during cache construction is
caught (fall-back to `news_embeds = None`) but a `RuntimeError` escapes
`_valid_epoch` uncaught — contradicting the stated intent that both faults
silently degrade to slow evaluation. -/
theorem runtime_error_escapes_valid_epoch :
    handled_exc = ExcClass.KeyError ∧
    news_embeds_result ℕ (fast_eval_condition "fast_evaluation" false false "base")
        (Except.error ExcClass.RuntimeError) = Except.error ExcClass.RuntimeError ∧
    news_embeds_result ℕ (fast_eval_condition "fast_evaluation" false false "base")
        (Except.error ExcClass.KeyError) = Except.ok none :=
  ⟨rfl, rfl, rfl⟩

/-- C4 counterexample: with 3 loader batches, `saved_weight_num = 0` and
`return_weight = true`, the loop processes only batch 0 and breaks — it does
not continue running the remaining validation batches, so impressions of
batches 1 and 2 get no metric results. -/
theorem weight_cap_stops_whole_loop_cex :
    processed_batches 3 0 true = [0] ∧ processed_batches 3 0 true ≠ List.range 3 := by
  exact ⟨rfl, by decide⟩

/-- C4 amended: the cap counts loader batches, not retained impressions, and
reaching it stops the whole evaluation loop: with `return_weight = true`
exactly the batches `0 .. min numBatches (saved_weight_num + 1) - 1` run
(metrics and weight retention stop together); with `return_weight = false`
every batch runs. -/
theorem weight_cap_processed_batches (numBatches saved : ℕ) :
    processed_batches numBatches saved true = List.range (min numBatches (saved + 1)) ∧
    processed_batches numBatches saved false = List.range numBatches := by
  constructor
  · rw [processed_batches, valid_loop_batches_true numBatches 0 saved (Nat.zero_le _),
      List.range_eq_range']
    simp
  · rw [processed_batches, valid_loop_batches_false, List.range_eq_range']

/-- C5 counterexample: saving dump `A = {"pred_score": [[1]]}` first (so it is
the prior file) and then dump `B = {"pred_score": [[2]]}` yields
`[[2], [1]]` — B's new values come first and A's prior sequence is appended
after them — not `[[1], [2]]` as the claim states. -/
theorem weight_dump_merge_order_cex :
    merge_weight_dump [("pred_score", [[2]])] [("pred_score", [[1]])] =
      Except.ok [("pred_score", [[2], [1]])] ∧
    merge_weight_dump [("pred_score", [[2]])] [("pred_score", [[1]])] ≠
      Except.ok [("pred_score", [[1], [2]])] := by
  refine ⟨rfl, fun h => ?_⟩
  exact absurd (Except.ok.inj h) (by decide)

/-- C5 amended: whenever the merge completes without raising — every field of
the new dump B has a prior saved sequence under A, so the file really is
overwritten — the save is accumulative but with the opposite order: each
field of the written file holds B's sequence followed by A's sequence
(`weight_dict[key].extend(old_weights[key])` appends the old values after
the new ones). -/
theorem merge_weight_dump_append_order (A B : List (String × List (List ℚ)))
    (k : String) (vb va : List (List ℚ))
    (hB : B.lookup k = some vb) (hA : A.lookup k = some va)
    (hcover : ∀ kv ∈ B, (A.lookup kv.1).isSome) :
    ∃ merged, merge_weight_dump B A = Except.ok merged ∧
      merged.lookup k = some (vb ++ va) := by
  refine ⟨_, merge_weight_dump_ok A B hcover, ?_⟩
  rw [lookup_map_preserve (fun key v => v ++ ((A.lookup key).getD [])) B k, hB]
  simp [hA]

theorem merge_weight_dump_append_order_witness :
    ([(("pred_score" : String), [[(2 : ℚ)]])].lookup "pred_score" = some [[2]]) ∧
    ([(("pred_score" : String), [[(1 : ℚ)]])].lookup "pred_score" = some [[1]]) ∧
    (∀ kv ∈ [(("pred_score" : String), [[(2 : ℚ)]])],
      (([(("pred_score" : String), [[(1 : ℚ)]])]).lookup kv.1).isSome) ∧
    ∃ merged, merge_weight_dump [("pred_score", [[2]])] [("pred_score", [[1]])] =
        Except.ok merged ∧ merged.lookup "pred_score" = some ([[(2 : ℚ)]] ++ [[1]]) :=
  ⟨by decide, by decide, by decide,
    merge_weight_dump_append_order [("pred_score", [[1]])] [("pred_score", [[2]])]
      "pred_score" [[2]] [[1]] (by decide) (by decide) (by decide)⟩

/-- C6: with a 100-batch epoch and `valid_interval = 0.2` (the double product
`100 * 0.2` rounds to exactly `20.0`, so the rational ceiling agrees),
`_validation` is called exactly at `batch_idx + 1 ∈ {20, 40, 60, 80}` inside
the loop — never at the first batch, never at the last — and once more after
the loop with argument `length = 100` and `do_monitor = False`. -/
theorem interval_validation_schedule :
    epoch_validations 100 (1 / 5) =
      [(19, true), (39, true), (59, true), (79, true), (100, false)] ∧
    ((List.range 100).filter (interval_trigger 100 (1 / 5))).map (· + 1) =
      [20, 40, 60, 80] := by
  have hceil : pyCeil (((100 : ℕ) : ℚ) * (1 / 5)) = 20 := by
    rw [pyCeil]; norm_num
  have hfun : interval_trigger 100 (1 / 5) =
      fun b => (((b : ℕ) + 1 : ℤ) % 20 == 0) && (b + 1 < 100) := by
    funext b
    rw [interval_trigger, hceil]
  constructor
  · rw [epoch_validations, hfun]
    decide
  · rw [hfun]
    decide

/-- C7 counterexample: with `topic_variant = "variational_topic"`, a primary
loss of 1 and a KL-divergence of 1000000, the loss handed to `backward` is
still exactly 1 and is unchanged when the KL value is replaced by 0 — the
KL addition is commented out; the branch only puts the KL value into the
progress-bar description. -/
theorem kl_not_added_to_loss_cex :
    backward_loss 1 0 1000000 1 false "variational_topic" = 1 ∧
    backward_loss 1 0 1000000 1 false "variational_topic" =
      backward_loss 1 0 0 1 false "variational_topic" ∧
    bar_shows_kl "variational_topic" = true :=
  ⟨rfl, rfl, rfl⟩

/-- C7 amended: the backward loss is the primary loss, plus the weighted
entropy term exactly when `entropy_constraint` is enabled; the KL-divergence
output never contributes to it for any `topic_variant` (including
`"variational_topic"`, whose branch only extends the progress-bar text). -/
theorem backward_loss_formula (primary entropy kl alpha : ℚ) (ec : Bool) (tv : String) :
    backward_loss primary entropy kl alpha true tv = primary + alpha * entropy ∧
    backward_loss primary entropy kl alpha false tv = primary ∧
    (∀ kl2 : ℚ, backward_loss primary entropy kl alpha ec tv =
      backward_loss primary entropy kl2 alpha ec tv) :=
  ⟨rfl, rfl, fun _ => rfl⟩

/-- C8 counterexample: in the `bi_batm` user-topic step no softmax (and no
masking) is applied — with all layer parameters and history vectors zero
(one head, one history position, every position non-masked), the per-head
weight row sums to 0, not 1. -/
theorem bi_batm_user_weight_not_normalized_cex :
    (∑ s : Fin 1, bi_batm_user_weight 1 1 1 1 (fun _ _ => 0) (fun _ => 0)
        (fun _ _ => 0) (fun _ => 0) (fun _ _ => 0) 0 s) ≠ 1 ∧
    (∑ s : Fin 1, bi_batm_user_weight 1 1 1 1 (fun _ _ => 0) (fun _ => 0)
        (fun _ _ => 0) (fun _ => 0) (fun _ _ => 0) 0 s) = 0 := by
  have h : (∑ s : Fin 1, bi_batm_user_weight 1 1 1 1 (fun _ _ => 0) (fun _ => 0)
      (fun _ _ => 0) (fun _ => 0) (fun _ _ => 0) 0 s) = 0 := by
    simp [bi_batm_user_weight, topic_layer, linear_layer]
  exact ⟨by rw [h]; norm_num, h⟩

/-- C8 amended: the guarantee holds for the topic-extraction step (shared by
all variants): each per-head `extract_topic` weight row — masked positions
(`news_mask == 0`) filled with the finite constant `-1e9` before softmax —
sums to exactly 1, every entry is strictly positive (so masked entries are
not exactly 0), and each masked entry is at most
`exp(-1e9 - score_j)` for any non-masked position `j`, hence vanishingly
small for bounded scores.  The `bi_batm` user-topic step over history news
applies no mask and no softmax, so no such guarantee holds there. -/
theorem extract_topic_weight_normalized (E T H S : ℕ)
    (W1 : Fin T → Fin E → ℝ) (b1 : Fin T → ℝ) (W2 : Fin H → Fin T → ℝ) (b2 : Fin H → ℝ)
    (embedding : Fin S → Fin E → ℝ) (news_mask : Fin S → ℤ) (h : Fin H)
    (hS : 0 < S) :
    (∑ s, extract_topic_weight E T H S W1 b1 W2 b2 embedding news_mask h s) = 1 ∧
    (∀ s j : Fin S, news_mask s = 0 → news_mask j ≠ 0 →
      extract_topic_weight E T H S W1 b1 W2 b2 embedding news_mask h s ≤
        Real.exp (negFill - topic_layer E T H W1 b1 W2 b2 (embedding j) h)) ∧
    (∀ s : Fin S, 0 < extract_topic_weight E T H S W1 b1 W2 b2 embedding news_mask h s) := by
  refine ⟨softmaxRow_sum S hS _, ?_, fun s => softmaxRow_pos S _ s⟩
  intro s j hs hj
  have hle := softmaxRow_le_exp_sub S
    (masked_fill S (fun t => topic_layer E T H W1 b1 W2 b2 (embedding t) h)
      (fun t => news_mask t == 0) negFill) s j
  have h1 : masked_fill S (fun t => topic_layer E T H W1 b1 W2 b2 (embedding t) h)
      (fun t => news_mask t == 0) negFill s = negFill := by
    simp [masked_fill, hs]
  have h2 : masked_fill S (fun t => topic_layer E T H W1 b1 W2 b2 (embedding t) h)
      (fun t => news_mask t == 0) negFill j = topic_layer E T H W1 b1 W2 b2 (embedding j) h := by
    simp [masked_fill, hj]
  rw [extract_topic_weight]
  rw [h1, h2] at hle
  exact hle

theorem extract_topic_weight_normalized_witness :
    0 < 1 ∧
    (∑ s : Fin 1, extract_topic_weight 1 1 1 1 (fun _ _ => 0) (fun _ => 0)
        (fun _ _ => 0) (fun _ => 0) (fun _ _ => 0) (fun _ => 1) 0 s) = 1 :=
  ⟨Nat.one_pos,
    (extract_topic_weight_normalized 1 1 1 1 (fun _ _ => 0) (fun _ => 0)
      (fun _ _ => 0) (fun _ => 0) (fun _ _ => 0) (fun _ => 1) 0 Nat.one_pos).1⟩

/-- C9: the merge-and-save step iterates only the keys of the current
in-memory dump; whenever the merge completes without raising (every current
key has a prior saved sequence, so the file really is overwritten), a field
present in the prior saved file but absent from the current dump does not
appear in the overwritten file — it is silently dropped. -/
theorem old_only_fields_dropped (weight_dict old_weights : List (String × List (List ℚ)))
    (k : String) (v : List (List ℚ))
    (hold : old_weights.lookup k = some v) (hcur : weight_dict.lookup k = none)
    (hcover : ∀ kv ∈ weight_dict, (old_weights.lookup kv.1).isSome) :
    ∃ merged, merge_weight_dump weight_dict old_weights = Except.ok merged ∧
      merged.lookup k = none := by
  refine ⟨_, merge_weight_dump_ok old_weights weight_dict hcover, ?_⟩
  rw [lookup_map_preserve (fun key w => w ++ ((old_weights.lookup key).getD []))
    weight_dict k, hcur]
  rfl

theorem old_only_fields_dropped_witness :
    ([(("label" : String), [[(0 : ℚ)]]), ("extra", [[9]])].lookup "extra" = some [[9]]) ∧
    ([(("label" : String), [[(1 : ℚ)]])].lookup "extra" = none) ∧
    (∀ kv ∈ [(("label" : String), [[(1 : ℚ)]])],
      (([(("label" : String), [[(0 : ℚ)]]), ("extra", [[9]])]).lookup kv.1).isSome) ∧
    ∃ merged, merge_weight_dump [("label", [[(1 : ℚ)]])]
        [("label", [[(0 : ℚ)]]), ("extra", [[9]])] = Except.ok merged ∧
      merged.lookup "extra" = none :=
  ⟨by decide, by decide, by decide,
    old_only_fields_dropped [("label", [[1]])] [("label", [[0]]), ("extra", [[9]])]
      "extra" [[9]] (by decide) (by decide) (by decide)⟩

/-- C10: for any `variant_name` outside `{"base", "bi_batm", "base_att"}`,
`user_encoder` returns `input_feat["history_news"]` unchanged: no recurrent
encoding, no topic projection, and no additive-attention pooling is applied. -/
theorem user_encoder_unknown_variant_identity (α : Type) (variant_name : String)
    (history_news : α) (user_encode_gru user_att_layer bi_weighted_sum user_final : α → α)
    (h1 : variant_name ≠ "base") (h2 : variant_name ≠ "bi_batm")
    (h3 : variant_name ≠ "base_att") :
    user_encoder α variant_name history_news user_encode_gru user_att_layer
      bi_weighted_sum user_final = history_news := by
  unfold user_encoder
  rw [if_neg h1, if_neg h2, if_neg h3]

theorem user_encoder_unknown_variant_identity_witness :
    ("variational_topic" : String) ≠ "base" ∧
    ("variational_topic" : String) ≠ "bi_batm" ∧
    ("variational_topic" : String) ≠ "base_att" ∧
    user_encoder ℕ "variational_topic" 42 (· + 1) (· * 2) (· + 3) (· + 4) = 42 :=
  ⟨by decide, by decide, by decide,
    user_encoder_unknown_variant_identity ℕ "variational_topic" 42 (· + 1) (· * 2)
      (· + 3) (· + 4) (by decide) (by decide) (by decide)⟩

end NewsRec
